import Mathlib

/-!
Verification of the bounded execution stack of lispBM (file
src/lispBM/lispBM/include/stack.h).

The header declares the stack record and the core single-word operations
(extern, implemented elsewhere), and defines inline the bulk frame
operations lbm_push_2 .. lbm_push_5 and lbm_pop_2 .. lbm_pop_5 as
non-short-circuiting AND-chains of the single-word operations.

Machine words (lbm_uint) are modelled as Nat: the stack stores words
opaquely and the only arithmetic performed on indices is guarded so that
no wrap-around can occur (sp stays within [0, size], and size is far
below the machine word bound).  The C result convention 1/0 is modelled
as Bool true/false.  Output pointers (lbm_uint *r) are modelled by
passing the current content of the output slot in and returning its new
content: a failing pop leaves the slot at its stale prior value, exactly
as unmodified memory does in C.
-/

/-- The stack record from stack.h: data buffer, stack pointer (depth),
size (capacity) and max_sp (peak depth / high-water mark). -/
structure lbm_stack_t where
  data : List Nat
  sp : Nat
  size : Nat
  max_sp : Nat
  deriving Repr, DecidableEq

/-- Modelled from the spec: lbm_stack_create is declared extern in
stack.h and its body is not part of the sources given; the spec says
wrap(buffer, length) always succeeds, borrows the buffer, depth = 0,
peak = 0. -/
def lbm_stack_create (data : List Nat) (size : Nat) : lbm_stack_t :=
  { data := data, sp := 0, size := size, max_sp := 0 }

/-- Modelled from the spec: lbm_stack_clear is declared extern in
stack.h and its body is not part of the sources given; the spec says
clear sets depth := 0, resets peak to 0, always succeeds (returns 1)
and does not touch the storage contents. -/
def lbm_stack_clear (s : lbm_stack_t) : Bool × lbm_stack_t :=
  (true, { s with sp := 0, max_sp := 0 })

/-- Modelled from the spec: lbm_get_stack_ptr is declared extern in
stack.h and its body is not part of the sources given; the spec says
peek(stack, n) returns a handle to the slot at index depth - 1 - n
(0 = top) when n < depth, otherwise fails returning NULL, and never
changes depth.  The handle is modelled as the index of the slot. -/
def lbm_get_stack_ptr (s : lbm_stack_t) (n : Nat) : Option Nat :=
  if n < s.sp then some (s.sp - 1 - n) else none

/-- Modelled from the spec: lbm_stack_drop is declared extern in
stack.h and its body is not part of the sources given; the spec says
drop(stack, n) fails leaving depth unchanged when n > depth, and
otherwise sets depth := depth - n and succeeds. -/
def lbm_stack_drop (s : lbm_stack_t) (n : Nat) : Bool × lbm_stack_t :=
  if n > s.sp then (false, s)
  else (true, { s with sp := s.sp - n })

/-- Modelled from the spec: lbm_push is declared extern in stack.h and
its body is not part of the sources given; the spec says that when
depth == capacity push fails with Overflow leaving the state unchanged,
and otherwise stores the word at index depth, increments depth, updates
peak := max(peak, depth) and succeeds. -/
def lbm_push (s : lbm_stack_t) (val : Nat) : Bool × lbm_stack_t :=
  if s.sp = s.size then (false, s)
  else (true, { s with data := s.data.set s.sp val,
                       sp := s.sp + 1,
                       max_sp := max s.max_sp (s.sp + 1) })

/-- Modelled from the spec: lbm_pop is declared extern in stack.h and
its body is not part of the sources given; the spec says that when
depth == 0 pop fails with Underflow leaving the state unchanged and
producing no output (the output slot keeps its stale content, passed
here as r), and otherwise decrements depth and returns the word
previously stored at the new depth. -/
def lbm_pop (s : lbm_stack_t) (r : Nat) : Bool × lbm_stack_t × Nat :=
  if s.sp = 0 then (false, s, r)
  else (true, { s with sp := s.sp - 1 }, s.data.getD (s.sp - 1) 0)

/-- From stack.h: returns 1 iff sp == 0. -/
def lbm_stack_is_empty (s : lbm_stack_t) : Bool :=
  s.sp = 0

/-- From stack.h: res = 1; res &= push val0; res &= push val1 —
both sub-pushes execute unconditionally, the result is the AND. -/
def lbm_push_2 (s : lbm_stack_t) (val0 val1 : Nat) : Bool × lbm_stack_t :=
  let p0 := lbm_push s val0
  let p1 := lbm_push p0.2 val1
  (p0.1 && p1.1, p1.2)

/-- From stack.h: three unconditional sub-pushes AND-aggregated. -/
def lbm_push_3 (s : lbm_stack_t) (val0 val1 val2 : Nat) : Bool × lbm_stack_t :=
  let p0 := lbm_push s val0
  let p1 := lbm_push p0.2 val1
  let p2 := lbm_push p1.2 val2
  (p0.1 && p1.1 && p2.1, p2.2)

/-- From stack.h: four unconditional sub-pushes AND-aggregated. -/
def lbm_push_4 (s : lbm_stack_t) (val0 val1 val2 val3 : Nat) : Bool × lbm_stack_t :=
  let p0 := lbm_push s val0
  let p1 := lbm_push p0.2 val1
  let p2 := lbm_push p1.2 val2
  let p3 := lbm_push p2.2 val3
  (p0.1 && p1.1 && p2.1 && p3.1, p3.2)

/-- From stack.h: five unconditional sub-pushes AND-aggregated. -/
def lbm_push_5 (s : lbm_stack_t) (val0 val1 val2 val3 val4 : Nat) : Bool × lbm_stack_t :=
  let p0 := lbm_push s val0
  let p1 := lbm_push p0.2 val1
  let p2 := lbm_push p1.2 val2
  let p3 := lbm_push p2.2 val3
  let p4 := lbm_push p3.2 val4
  (p0.1 && p1.1 && p2.1 && p3.1 && p4.1, p4.2)

/-- From stack.h: two unconditional sub-pops AND-aggregated; r0 and r1
carry the stale contents of the two output slots in, and the returned
pair carries their contents after the call. -/
def lbm_pop_2 (s : lbm_stack_t) (r0 r1 : Nat) :
    Bool × lbm_stack_t × Nat × Nat :=
  let p0 := lbm_pop s r0
  let p1 := lbm_pop p0.2.1 r1
  (p0.1 && p1.1, p1.2.1, p0.2.2, p1.2.2)

/-- From stack.h: three unconditional sub-pops AND-aggregated. -/
def lbm_pop_3 (s : lbm_stack_t) (r0 r1 r2 : Nat) :
    Bool × lbm_stack_t × Nat × Nat × Nat :=
  let p0 := lbm_pop s r0
  let p1 := lbm_pop p0.2.1 r1
  let p2 := lbm_pop p1.2.1 r2
  (p0.1 && p1.1 && p2.1, p2.2.1, p0.2.2, p1.2.2, p2.2.2)

/-- From stack.h: four unconditional sub-pops AND-aggregated. -/
def lbm_pop_4 (s : lbm_stack_t) (r0 r1 r2 r3 : Nat) :
    Bool × lbm_stack_t × Nat × Nat × Nat × Nat :=
  let p0 := lbm_pop s r0
  let p1 := lbm_pop p0.2.1 r1
  let p2 := lbm_pop p1.2.1 r2
  let p3 := lbm_pop p2.2.1 r3
  (p0.1 && p1.1 && p2.1 && p3.1, p3.2.1, p0.2.2, p1.2.2, p2.2.2, p3.2.2)

/-- From stack.h: five unconditional sub-pops AND-aggregated. -/
def lbm_pop_5 (s : lbm_stack_t) (r0 r1 r2 r3 r4 : Nat) :
    Bool × lbm_stack_t × Nat × Nat × Nat × Nat × Nat :=
  let p0 := lbm_pop s r0
  let p1 := lbm_pop p0.2.1 r1
  let p2 := lbm_pop p1.2.1 r2
  let p3 := lbm_pop p2.2.1 r3
  let p4 := lbm_pop p3.2.1 r4
  (p0.1 && p1.1 && p2.1 && p3.1 && p4.1, p4.2.1,
   p0.2.2, p1.2.2, p2.2.2, p3.2.2, p4.2.2)

/-- Sequential push of a list of words, the generalization of the
AND-chain pattern of lbm_push_2 .. lbm_push_5: every sub-push executes
unconditionally and the overall result is the AND of all of them. -/
def pushAll (s : lbm_stack_t) (ws : List Nat) : Bool × lbm_stack_t :=
  match ws with
  | [] => (true, s)
  | w :: rest =>
    let p := lbm_push s w
    let q := pushAll p.2 rest
    (p.1 && q.1, q.2)

/-- Sequential pop into a list of output slots (stale contents given),
the generalization of lbm_pop_2 .. lbm_pop_5: every sub-pop executes
unconditionally, the result is the AND of all of them, and each output
slot either receives the popped word or keeps its stale content. -/
def popAllS (s : lbm_stack_t) (stale : List Nat) :
    Bool × lbm_stack_t × List Nat :=
  match stale with
  | [] => (true, s, [])
  | r :: rest =>
    let p := lbm_pop s r
    let q := popAllS p.2.1 rest
    (p.1 && q.1, q.2.1, p.2.2 :: q.2.2)

/-- Well-formedness of a stack state: the buffer length is the
capacity, the depth stays within the capacity, and the peak dominates
the depth.  Holds for freshly created stacks on a matching buffer and
is preserved by every operation. -/
def WF (s : lbm_stack_t) : Prop :=
  s.data.length = s.size ∧ s.sp ≤ s.size ∧ s.sp ≤ s.max_sp

instance (s : lbm_stack_t) : Decidable (WF s) := by
  unfold WF; infer_instance

/-! ### List helper lemmas -/

lemma getD_set_self (l : List Nat) (i a : Nat) (h : i < l.length) :
    (l.set i a).getD i 0 = a := by
  simp [List.getD_eq_getElem?_getD, List.getElem?_set, h]

lemma getD_set_ne (l : List Nat) (i j a : Nat) (h : i ≠ j) :
    (l.set i a).getD j 0 = l.getD j 0 := by
  simp [List.getD_eq_getElem?_getD, List.getElem?_set, h]

lemma list_eq_of_getD (xs ys : List Nat) (hlen : xs.length = ys.length)
    (h : ∀ i, i < xs.length → xs.getD i 0 = ys.getD i 0) : xs = ys := by
  induction xs generalizing ys with
  | nil => cases ys with
    | nil => rfl
    | cons y ys => simp at hlen
  | cons x xs ih =>
    cases ys with
    | nil => simp at hlen
    | cons y ys =>
      simp only [List.length_cons, Nat.succ_eq_add_one] at hlen
      have hx : x = y := by simpa using h 0 (by simp)
      have ht : xs = ys := ih ys (by omega) (fun i hi => by
        simpa using h (i + 1) (by simpa using Nat.succ_lt_succ hi))
      rw [hx, ht]

lemma getD_reverse (l : List Nat) (i : Nat) (h : i < l.length) :
    l.reverse.getD i 0 = l.getD (l.length - 1 - i) 0 := by
  have h' : i < l.reverse.length := by simpa using h
  simp [List.getD_eq_getElem?_getD, List.getElem?_reverse h]

/-! ### Case lemmas for the single-word operations -/

lemma lbm_push_full (s : lbm_stack_t) (v : Nat) (h : s.sp = s.size) :
    lbm_push s v = (false, s) := by
  simp [lbm_push, h]

lemma lbm_push_ok (s : lbm_stack_t) (v : Nat) (h : s.sp ≠ s.size) :
    lbm_push s v =
      (true, { s with data := s.data.set s.sp v,
                      sp := s.sp + 1,
                      max_sp := max s.max_sp (s.sp + 1) }) := by
  simp [lbm_push, h]

lemma lbm_pop_empty (s : lbm_stack_t) (r : Nat) (h : s.sp = 0) :
    lbm_pop s r = (false, s, r) := by
  simp [lbm_pop, h]

lemma lbm_pop_ok (s : lbm_stack_t) (r : Nat) (h : s.sp ≠ 0) :
    lbm_pop s r = (true, { s with sp := s.sp - 1 }, s.data.getD (s.sp - 1) 0) := by
  simp [lbm_pop, h]

/-! ### The bulk operations are instances of the sequential chains -/

lemma lbm_push_2_eq (s : lbm_stack_t) (v0 v1 : Nat) :
    lbm_push_2 s v0 v1 = pushAll s [v0, v1] := by
  simp [lbm_push_2, pushAll, Bool.and_assoc]

lemma lbm_push_3_eq (s : lbm_stack_t) (v0 v1 v2 : Nat) :
    lbm_push_3 s v0 v1 v2 = pushAll s [v0, v1, v2] := by
  simp [lbm_push_3, pushAll, Bool.and_assoc]

lemma lbm_push_4_eq (s : lbm_stack_t) (v0 v1 v2 v3 : Nat) :
    lbm_push_4 s v0 v1 v2 v3 = pushAll s [v0, v1, v2, v3] := by
  simp [lbm_push_4, pushAll, Bool.and_assoc]

lemma lbm_push_5_eq (s : lbm_stack_t) (v0 v1 v2 v3 v4 : Nat) :
    lbm_push_5 s v0 v1 v2 v3 v4 = pushAll s [v0, v1, v2, v3, v4] := by
  simp [lbm_push_5, pushAll, Bool.and_assoc]

lemma lbm_pop_2_eq (s : lbm_stack_t) (r0 r1 : Nat) :
    lbm_pop_2 s r0 r1 =
      ((popAllS s [r0, r1]).1, (popAllS s [r0, r1]).2.1,
       (popAllS s [r0, r1]).2.2.getD 0 0, (popAllS s [r0, r1]).2.2.getD 1 0) := by
  simp [lbm_pop_2, popAllS, Bool.and_assoc, List.getD]

lemma lbm_pop_3_eq (s : lbm_stack_t) (r0 r1 r2 : Nat) :
    lbm_pop_3 s r0 r1 r2 =
      ((popAllS s [r0, r1, r2]).1, (popAllS s [r0, r1, r2]).2.1,
       (popAllS s [r0, r1, r2]).2.2.getD 0 0, (popAllS s [r0, r1, r2]).2.2.getD 1 0,
       (popAllS s [r0, r1, r2]).2.2.getD 2 0) := by
  simp [lbm_pop_3, popAllS, Bool.and_assoc, List.getD]

lemma lbm_pop_4_eq (s : lbm_stack_t) (r0 r1 r2 r3 : Nat) :
    lbm_pop_4 s r0 r1 r2 r3 =
      ((popAllS s [r0, r1, r2, r3]).1, (popAllS s [r0, r1, r2, r3]).2.1,
       (popAllS s [r0, r1, r2, r3]).2.2.getD 0 0,
       (popAllS s [r0, r1, r2, r3]).2.2.getD 1 0,
       (popAllS s [r0, r1, r2, r3]).2.2.getD 2 0,
       (popAllS s [r0, r1, r2, r3]).2.2.getD 3 0) := by
  simp [lbm_pop_4, popAllS, Bool.and_assoc, List.getD]

lemma lbm_pop_5_eq (s : lbm_stack_t) (r0 r1 r2 r3 r4 : Nat) :
    lbm_pop_5 s r0 r1 r2 r3 r4 =
      ((popAllS s [r0, r1, r2, r3, r4]).1, (popAllS s [r0, r1, r2, r3, r4]).2.1,
       (popAllS s [r0, r1, r2, r3, r4]).2.2.getD 0 0,
       (popAllS s [r0, r1, r2, r3, r4]).2.2.getD 1 0,
       (popAllS s [r0, r1, r2, r3, r4]).2.2.getD 2 0,
       (popAllS s [r0, r1, r2, r3, r4]).2.2.getD 3 0,
       (popAllS s [r0, r1, r2, r3, r4]).2.2.getD 4 0) := by
  simp [lbm_pop_5, popAllS, Bool.and_assoc, List.getD]

/-! ### Characterization of the sequential push chain -/

lemma pushAll_size (ws : List Nat) (s : lbm_stack_t) :
    (pushAll s ws).2.size = s.size := by
  induction ws generalizing s with
  | nil => rfl
  | cons w rest ih =>
    by_cases h : s.sp = s.size
    · simpa [pushAll, lbm_push_full s w h] using ih s
    · simpa [pushAll, lbm_push_ok s w h] using ih _

lemma pushAll_length (ws : List Nat) (s : lbm_stack_t) :
    (pushAll s ws).2.data.length = s.data.length := by
  induction ws generalizing s with
  | nil => rfl
  | cons w rest ih =>
    by_cases h : s.sp = s.size
    · simpa [pushAll, lbm_push_full s w h] using ih s
    · simp only [pushAll, lbm_push_ok s w h]
      rw [ih _]
      simp

lemma pushAll_max_sp_mono (ws : List Nat) (s : lbm_stack_t) :
    s.max_sp ≤ (pushAll s ws).2.max_sp := by
  induction ws generalizing s with
  | nil => exact le_refl _
  | cons w rest ih =>
    by_cases h : s.sp = s.size
    · simpa [pushAll, lbm_push_full s w h] using ih s
    · simp only [pushAll, lbm_push_ok s w h]
      exact le_trans (le_max_left s.max_sp (s.sp + 1))
        (ih { s with data := s.data.set s.sp w, sp := s.sp + 1,
                     max_sp := max s.max_sp (s.sp + 1) })

lemma pushAll_res (ws : List Nat) (s : lbm_stack_t) (hsp : s.sp ≤ s.size) :
    (pushAll s ws).1 = decide (s.sp + ws.length ≤ s.size) := by
  induction ws generalizing s with
  | nil => simp [pushAll, hsp]
  | cons w rest ih =>
    by_cases h : s.sp = s.size
    · have hd : ¬ (s.sp + (w :: rest).length ≤ s.size) := by simp; omega
      simp [pushAll, lbm_push_full s w h, hd]
      omega
    · have hlt : s.sp < s.size := lt_of_le_of_ne hsp h
      simp only [pushAll, lbm_push_ok s w h, Bool.true_and]
      rw [ih _ (by simp; omega)]
      apply decide_eq_decide.mpr
      simp
      omega

lemma pushAll_sp (ws : List Nat) (s : lbm_stack_t) (hsp : s.sp ≤ s.size) :
    (pushAll s ws).2.sp = min (s.sp + ws.length) s.size := by
  induction ws generalizing s with
  | nil => simp [pushAll, Nat.min_eq_left hsp]
  | cons w rest ih =>
    by_cases h : s.sp = s.size
    · rw [show pushAll s (w :: rest) = ((lbm_push s w).1 && (pushAll (lbm_push s w).2 rest).1, (pushAll (lbm_push s w).2 rest).2) from rfl]
      simp only [lbm_push_full s w h]
      rw [ih s hsp]
      simp
      omega
    · have hlt : s.sp < s.size := lt_of_le_of_ne hsp h
      simp only [pushAll, lbm_push_ok s w h]
      rw [ih _ (by simp; omega)]
      simp
      omega

lemma pushAll_data_lo (ws : List Nat) (s : lbm_stack_t) (i : Nat) (hi : i < s.sp) :
    (pushAll s ws).2.data.getD i 0 = s.data.getD i 0 := by
  induction ws generalizing s with
  | nil => rfl
  | cons w rest ih =>
    by_cases h : s.sp = s.size
    · simpa [pushAll, lbm_push_full s w h] using ih s hi
    · simp only [pushAll, lbm_push_ok s w h]
      rw [ih _ (show i < s.sp + 1 by omega)]
      exact getD_set_ne _ _ _ _ (by omega)

lemma pushAll_data_hi (ws : List Nat) (s : lbm_stack_t) (hsp : s.sp ≤ s.size)
    (j : Nat) (hj : min (s.sp + ws.length) s.size ≤ j) :
    (pushAll s ws).2.data.getD j 0 = s.data.getD j 0 := by
  induction ws generalizing s with
  | nil => rfl
  | cons w rest ih =>
    by_cases h : s.sp = s.size
    · simp only [List.length_cons] at hj
      simpa [pushAll, lbm_push_full s w h] using ih s hsp (by simp; omega)
    · have hlt : s.sp < s.size := lt_of_le_of_ne hsp h
      simp only [List.length_cons] at hj
      simp only [pushAll, lbm_push_ok s w h]
      rw [ih _ (by simp; omega) (by simp; omega)]
      exact getD_set_ne _ _ _ _ (by omega)

lemma pushAll_data_mid (ws : List Nat) (s : lbm_stack_t)
    (hlen : s.data.length = s.size) (hsp : s.sp ≤ s.size)
    (i : Nat) (hi : i < ws.length) (hcap : s.sp + i < s.size) :
    (pushAll s ws).2.data.getD (s.sp + i) 0 = ws.getD i 0 := by
  induction ws generalizing s i with
  | nil => simp at hi
  | cons w rest ih =>
    have h : s.sp ≠ s.size := by omega
    cases i with
    | zero =>
      simp only [pushAll, lbm_push_ok s w h, Nat.add_zero]
      rw [pushAll_data_lo rest
        { s with data := s.data.set s.sp w, sp := s.sp + 1,
                 max_sp := max s.max_sp (s.sp + 1) }
        s.sp (Nat.lt_succ_self _)]
      simpa [List.getD] using getD_set_self s.data s.sp w (by omega)
    | succ i =>
      simp only [pushAll, lbm_push_ok s w h]
      have hi' : i < rest.length := by simp at hi; omega
      have step := ih
        { s with data := s.data.set s.sp w, sp := s.sp + 1,
                 max_sp := max s.max_sp (s.sp + 1) }
        (by simpa using hlen) (by simp; omega) i hi' (by simp; omega)
      simp only at step
      have harith : s.sp + 1 + i = s.sp + (i + 1) := by omega
      rw [harith] at step
      rw [step]
      simp [List.getD]

/-! ### Characterization of the sequential pop chain -/

lemma popAllS_state (stale : List Nat) (s : lbm_stack_t) :
    (popAllS s stale).2.1 = { s with sp := s.sp - stale.length } := by
  induction stale generalizing s with
  | nil => rfl
  | cons r rest ih =>
    by_cases h : s.sp = 0
    · simp only [popAllS, lbm_pop_empty s r h]
      rw [ih s]
      have : s.sp - rest.length = s.sp - (rest.length + 1) := by omega
      simp [this]
    · simp only [popAllS, lbm_pop_ok s r h]
      rw [ih { s with sp := s.sp - 1 }]
      have : s.sp - 1 - rest.length = s.sp - (rest.length + 1) := by omega
      simp [this]

lemma popAllS_res (stale : List Nat) (s : lbm_stack_t) :
    (popAllS s stale).1 = decide (stale.length ≤ s.sp) := by
  induction stale generalizing s with
  | nil => simp [popAllS]
  | cons r rest ih =>
    by_cases h : s.sp = 0
    · simp [popAllS, lbm_pop_empty s r h, h]
    · simp only [popAllS, lbm_pop_ok s r h, Bool.true_and]
      rw [ih { s with sp := s.sp - 1 }]
      apply decide_eq_decide.mpr
      simp
      omega

lemma popAllS_out_len (stale : List Nat) (s : lbm_stack_t) :
    (popAllS s stale).2.2.length = stale.length := by
  induction stale generalizing s with
  | nil => rfl
  | cons r rest ih =>
    by_cases h : s.sp = 0
    · simp [popAllS, lbm_pop_empty s r h, ih]
    · simp [popAllS, lbm_pop_ok s r h, ih]

lemma popAllS_out (stale : List Nat) (s : lbm_stack_t) (i : Nat)
    (hi : i < stale.length) :
    (popAllS s stale).2.2.getD i 0 =
      if i < s.sp then s.data.getD (s.sp - 1 - i) 0 else stale.getD i 0 := by
  induction stale generalizing s i with
  | nil => simp at hi
  | cons r rest ih =>
    by_cases h : s.sp = 0
    · cases i with
      | zero => simp [popAllS, lbm_pop_empty s r h, h, List.getD]
      | succ i =>
        have hi' : i < rest.length := by simp at hi; omega
        simp only [popAllS, lbm_pop_empty s r h]
        have step := ih s i hi'
        simp only [List.getD_cons_succ]
        rw [step]
        simp [h, List.getD]
    · cases i with
      | zero =>
        simp only [popAllS, lbm_pop_ok s r h]
        simp [List.getD, Nat.pos_of_ne_zero h]
      | succ i =>
        have hi' : i < rest.length := by simp at hi; omega
        simp only [popAllS, lbm_pop_ok s r h]
        have step := ih { s with sp := s.sp - 1 } i hi'
        simp only at step
        simp only [List.getD_cons_succ]
        rw [step]
        by_cases hlt : i + 1 < s.sp
        · have h1 : i < s.sp - 1 := by omega
          have h2 : s.sp - 1 - 1 - i = s.sp - 1 - (i + 1) := by omega
          simp [h1, hlt, h2]
        · have h1 : ¬ i < s.sp - 1 := by omega
          simp [h1, hlt]

/-! ### The operation alphabet and its step function, for invariant claims -/

/-- One call of the public mutating interface.  The peek constructor
carries its index; lbm_get_stack_ptr returns a handle without touching
the stack, so its step leaves the state as is.  Bulk pops use fresh
(zero) output slots; the slot contents do not influence the state. -/
inductive StackOp where
  | push (v : Nat)
  | pop
  | push2 (a b : Nat)
  | push3 (a b c : Nat)
  | push4 (a b c d : Nat)
  | push5 (a b c d e : Nat)
  | pop2
  | pop3
  | pop4
  | pop5
  | drop (n : Nat)
  | peek (n : Nat)
  | clear
  deriving Repr, DecidableEq

/-- State transition of one operation, discarding results and outputs. -/
def stepOp (op : StackOp) (s : lbm_stack_t) : lbm_stack_t :=
  match op with
  | .push v => (lbm_push s v).2
  | .pop => (lbm_pop s 0).2.1
  | .push2 a b => (lbm_push_2 s a b).2
  | .push3 a b c => (lbm_push_3 s a b c).2
  | .push4 a b c d => (lbm_push_4 s a b c d).2
  | .push5 a b c d e => (lbm_push_5 s a b c d e).2
  | .pop2 => (lbm_pop_2 s 0 0).2.1
  | .pop3 => (lbm_pop_3 s 0 0 0).2.1
  | .pop4 => (lbm_pop_4 s 0 0 0 0).2.1
  | .pop5 => (lbm_pop_5 s 0 0 0 0 0).2.1
  | .drop n => (lbm_stack_drop s n).2
  | .peek _ => s
  | .clear => (lbm_stack_clear s).2

/-- Run a sequence of operations left to right. -/
def runOps (ops : List StackOp) (s : lbm_stack_t) : lbm_stack_t :=
  match ops with
  | [] => s
  | op :: rest => runOps rest (stepOp op s)

/-- The depth/peak invariant of the spec: depth within capacity and
dominated by the peak. -/
def StackInv (s : lbm_stack_t) : Prop :=
  s.sp ≤ s.size ∧ s.sp ≤ s.max_sp

lemma lbm_push_stackinv (s : lbm_stack_t) (v : Nat) (h : StackInv s) :
    StackInv (lbm_push s v).2 := by
  rcases h with ⟨h1, h2⟩
  by_cases hf : s.sp = s.size
  · rw [lbm_push_full s v hf]; exact ⟨h1, h2⟩
  · rw [lbm_push_ok s v hf]
    refine ⟨?_, ?_⟩ <;> simp <;> omega

lemma pushAll_stackinv (ws : List Nat) (s : lbm_stack_t) (h : StackInv s) :
    StackInv (pushAll s ws).2 := by
  induction ws generalizing s with
  | nil => exact h
  | cons w rest ih =>
    by_cases hf : s.sp = s.size
    · simpa [pushAll, lbm_push_full s w hf] using ih s h
    · simp only [pushAll, lbm_push_ok s w hf]
      apply ih
      rcases h with ⟨h1, h2⟩
      have : s.sp < s.size := lt_of_le_of_ne h1 hf
      refine ⟨?_, ?_⟩ <;> simp <;> omega

lemma lbm_pop_stackinv (s : lbm_stack_t) (r : Nat) (h : StackInv s) :
    StackInv (lbm_pop s r).2.1 := by
  rcases h with ⟨h1, h2⟩
  by_cases hf : s.sp = 0
  · rw [lbm_pop_empty s r hf]; exact ⟨h1, h2⟩
  · rw [lbm_pop_ok s r hf]
    exact ⟨by simp; omega, by simp; omega⟩

lemma popAllS_stackinv (stale : List Nat) (s : lbm_stack_t) (h : StackInv s) :
    StackInv (popAllS s stale).2.1 := by
  rw [popAllS_state]
  rcases h with ⟨h1, h2⟩
  exact ⟨by simp; omega, by simp; omega⟩

lemma stepOp_stackinv (op : StackOp) (s : lbm_stack_t) (h : StackInv s) :
    StackInv (stepOp op s) := by
  cases op with
  | push v => exact lbm_push_stackinv s v h
  | pop => exact lbm_pop_stackinv s 0 h
  | push2 a b => simp only [stepOp]; rw [lbm_push_2_eq]; exact pushAll_stackinv _ s h
  | push3 a b c => simp only [stepOp]; rw [lbm_push_3_eq]; exact pushAll_stackinv _ s h
  | push4 a b c d => simp only [stepOp]; rw [lbm_push_4_eq]; exact pushAll_stackinv _ s h
  | push5 a b c d e => simp only [stepOp]; rw [lbm_push_5_eq]; exact pushAll_stackinv _ s h
  | pop2 => simp only [stepOp]; rw [lbm_pop_2_eq]; exact popAllS_stackinv _ s h
  | pop3 => simp only [stepOp]; rw [lbm_pop_3_eq]; exact popAllS_stackinv _ s h
  | pop4 => simp only [stepOp]; rw [lbm_pop_4_eq]; exact popAllS_stackinv _ s h
  | pop5 => simp only [stepOp]; rw [lbm_pop_5_eq]; exact popAllS_stackinv _ s h
  | drop n =>
    rcases h with ⟨h1, h2⟩
    simp only [stepOp, lbm_stack_drop]
    by_cases hf : n > s.sp
    · simp [hf]; exact ⟨h1, h2⟩
    · simp [hf, StackInv]
      omega
  | peek n => exact h
  | clear => exact ⟨Nat.zero_le _, Nat.le_refl 0⟩

lemma runOps_stackinv (ops : List StackOp) (s : lbm_stack_t) (h : StackInv s) :
    StackInv (runOps ops s) := by
  induction ops generalizing s with
  | nil => exact h
  | cons op rest ih => exact ih _ (stepOp_stackinv op s h)

lemma stepOp_max_sp_mono (op : StackOp) (s : lbm_stack_t)
    (h : op ≠ StackOp.clear) : s.max_sp ≤ (stepOp op s).max_sp := by
  cases op with
  | push v =>
    by_cases hf : s.sp = s.size
    · simp only [stepOp]; rw [lbm_push_full s v hf]
    · simp only [stepOp]; rw [lbm_push_ok s v hf]; exact le_max_left _ _
  | pop =>
    by_cases hf : s.sp = 0
    · simp only [stepOp]; rw [lbm_pop_empty s 0 hf]
    · simp only [stepOp]; rw [lbm_pop_ok s 0 hf]
  | push2 a b => simp only [stepOp]; rw [lbm_push_2_eq]; exact pushAll_max_sp_mono _ s
  | push3 a b c => simp only [stepOp]; rw [lbm_push_3_eq]; exact pushAll_max_sp_mono _ s
  | push4 a b c d => simp only [stepOp]; rw [lbm_push_4_eq]; exact pushAll_max_sp_mono _ s
  | push5 a b c d e => simp only [stepOp]; rw [lbm_push_5_eq]; exact pushAll_max_sp_mono _ s
  | pop2 => simp only [stepOp]; rw [lbm_pop_2_eq, popAllS_state]
  | pop3 => simp only [stepOp]; rw [lbm_pop_3_eq, popAllS_state]
  | pop4 => simp only [stepOp]; rw [lbm_pop_4_eq, popAllS_state]
  | pop5 => simp only [stepOp]; rw [lbm_pop_5_eq, popAllS_state]
  | drop n =>
    simp only [stepOp, lbm_stack_drop]
    by_cases hf : n > s.sp
    · simp [hf]
    · simp [hf]
  | peek n => exact le_refl _
  | clear => exact absurd rfl h

/-! ### Claim theorems -/

/-- C2: push with depth == capacity fails (Overflow) and leaves depth,
peak and all stored words unchanged; otherwise it stores the word at
index depth, increments depth by 1, updates the peak to
max(peak, depth) and succeeds. -/
theorem C2_push_contract (s : lbm_stack_t) (v : Nat)
    (hlen : s.data.length = s.size) :
    (s.sp = s.size → lbm_push s v = (false, s)) ∧
    (s.sp ≠ s.size →
      (lbm_push s v).1 = true ∧
      (lbm_push s v).2.sp = s.sp + 1 ∧
      (lbm_push s v).2.max_sp = max s.max_sp (s.sp + 1) ∧
      (lbm_push s v).2.size = s.size ∧
      (s.sp < s.size → (lbm_push s v).2.data.getD s.sp 0 = v) ∧
      (∀ i, i ≠ s.sp → (lbm_push s v).2.data.getD i 0 = s.data.getD i 0)) := by
  constructor
  · intro h
    exact lbm_push_full s v h
  · intro h
    rw [lbm_push_ok s v h]
    refine ⟨rfl, rfl, rfl, rfl, ?_, ?_⟩
    · intro hlt
      exact getD_set_self s.data s.sp v (by omega)
    · intro i hi
      exact getD_set_ne s.data s.sp i v (fun he => hi he.symm)

/-- C2 witness: the contract evaluated on a concrete non-full stack. -/
theorem C2_push_contract_witness :
    (lbm_push ⟨[9, 9, 9], 1, 3, 1⟩ 5).1 = true ∧
    (lbm_push ⟨[9, 9, 9], 1, 3, 1⟩ 5).2.sp = 2 ∧
    (lbm_push ⟨[9, 9, 9], 1, 3, 1⟩ 5).2.data.getD 1 0 = 5 := by
  have h := (C2_push_contract ⟨[9, 9, 9], 1, 3, 1⟩ 5 rfl).2 (by decide)
  exact ⟨h.1, h.2.1, h.2.2.2.2.1 (by decide)⟩

/-- C6: pop at depth 0, peek with n ≥ depth and drop with n > depth
each fail (Underflow) leaving depth and the stored words unchanged;
drop with n ≤ depth succeeds and sets depth to depth - n. -/
theorem C6_underflow_contract (s : lbm_stack_t) (n r : Nat) :
    (s.sp = 0 → lbm_pop s r = (false, s, r)) ∧
    (n ≥ s.sp → lbm_get_stack_ptr s n = none) ∧
    (n > s.sp → lbm_stack_drop s n = (false, s)) ∧
    (n ≤ s.sp → lbm_stack_drop s n = (true, { s with sp := s.sp - n })) := by
  refine ⟨fun h => lbm_pop_empty s r h, ?_, ?_, ?_⟩
  · intro h
    simp [lbm_get_stack_ptr]
    omega
  · intro h
    simp [lbm_stack_drop, h]
  · intro h
    simp [lbm_stack_drop]
    omega

/-- C6 witness: the underflow contract evaluated on the empty stack of
capacity 0 with index 1, plus a successful drop of 0 elements. -/
theorem C6_underflow_contract_witness :
    lbm_pop ⟨[], 0, 0, 0⟩ 7 = (false, ⟨[], 0, 0, 0⟩, 7) ∧
    lbm_get_stack_ptr ⟨[], 0, 0, 0⟩ 1 = none ∧
    lbm_stack_drop ⟨[], 0, 0, 0⟩ 1 = (false, ⟨[], 0, 0, 0⟩) ∧
    lbm_stack_drop ⟨[], 0, 0, 0⟩ 0 = (true, ⟨[], 0, 0, 0⟩) := by
  have h := C6_underflow_contract ⟨[], 0, 0, 0⟩ 1 7
  have h0 := C6_underflow_contract ⟨[], 0, 0, 0⟩ 0 7
  exact ⟨h.1 rfl, h.2.1 (by decide), h.2.2.1 (by decide), h0.2.2.2 (by decide)⟩

/-- C7: peek(stack, n) with n < depth returns the handle of the slot at
index depth - 1 - n (n = 0 is the top) and with n ≥ depth fails
returning no handle; the embedding of lbm_get_stack_ptr is pure, so it
cannot change depth; after a run of successful pushes the slot the
handle points to holds the word pushed (n+1) pushes ago from the top. -/
theorem C7_peek_contract (s : lbm_stack_t) (n : Nat) (ws : List Nat)
    (hlen : s.data.length = s.size) (hsp : s.sp ≤ s.size)
    (hcap : s.sp + ws.length ≤ s.size) :
    (n < s.sp → lbm_get_stack_ptr s n = some (s.sp - 1 - n)) ∧
    (s.sp ≤ n → lbm_get_stack_ptr s n = none) ∧
    (n < ws.length →
      lbm_get_stack_ptr (pushAll s ws).2 n = some (s.sp + ws.length - 1 - n) ∧
      (pushAll s ws).2.data.getD (s.sp + ws.length - 1 - n) 0 =
        ws.getD (ws.length - 1 - n) 0) := by
  refine ⟨?_, ?_, ?_⟩
  · intro h
    simp [lbm_get_stack_ptr, h]
  · intro h
    simp [lbm_get_stack_ptr]
    omega
  · intro h
    have hsp' := pushAll_sp ws s hsp
    have hmin : min (s.sp + ws.length) s.size = s.sp + ws.length := by omega
    constructor
    · simp [lbm_get_stack_ptr, hsp', hmin]
      omega
    · have hmid := pushAll_data_mid ws s hlen hsp (ws.length - 1 - n)
        (by omega) (by omega)
      have harith : s.sp + (ws.length - 1 - n) = s.sp + ws.length - 1 - n := by
        omega
      rw [harith] at hmid
      exact hmid

/-- C7 witness: peeking the two-element stack obtained by pushing 4
then 7 on a fresh stack of capacity 2. -/
theorem C7_peek_contract_witness :
    lbm_get_stack_ptr (pushAll (lbm_stack_create [0, 0] 2) [4, 7]).2 0 = some 1 ∧
    (pushAll (lbm_stack_create [0, 0] 2) [4, 7]).2.data.getD 1 0 = 7 := by
  have h := (C7_peek_contract (lbm_stack_create [0, 0] 2) 0 [4, 7]
    rfl (by decide) (by decide)).2.2 (by decide)
  exact ⟨h.1, h.2⟩

/-- C8: clear always succeeds, sets depth to 0, resets the peak to 0,
and leaves capacity and every word of the backing buffer unchanged. -/
theorem C8_clear_contract (s : lbm_stack_t) :
    lbm_stack_clear s = (true, { s with sp := 0, max_sp := 0 }) ∧
    (lbm_stack_clear s).1 = true ∧
    (lbm_stack_clear s).2.sp = 0 ∧
    (lbm_stack_clear s).2.max_sp = 0 ∧
    (lbm_stack_clear s).2.data = s.data ∧
    (lbm_stack_clear s).2.size = s.size :=
  ⟨rfl, rfl, rfl, rfl, rfl, rfl⟩

/-- C5: after a run of successful pushes of ws (no interleaved pops,
count within remaining capacity) the subsequent pops succeed and return
the pushed words in reverse push order, restoring the prior depth; in
particular push(v) immediately followed by pop() returns v and restores
the prior depth whenever the stack was not full. -/
theorem C5_lifo_roundtrip (s : lbm_stack_t) (ws : List Nat) (v r : Nat)
    (hlen : s.data.length = s.size) (hsp : s.sp ≤ s.size)
    (hcap : s.sp + ws.length ≤ s.size) :
    (pushAll s ws).1 = true ∧
    (popAllS (pushAll s ws).2 (List.replicate ws.length 0)).1 = true ∧
    (popAllS (pushAll s ws).2 (List.replicate ws.length 0)).2.2 = ws.reverse ∧
    (popAllS (pushAll s ws).2 (List.replicate ws.length 0)).2.1.sp = s.sp ∧
    (s.sp < s.size →
      (lbm_pop (lbm_push s v).2 r).1 = true ∧
      (lbm_pop (lbm_push s v).2 r).2.2 = v ∧
      (lbm_pop (lbm_push s v).2 r).2.1.sp = s.sp) := by
  have hsp' : (pushAll s ws).2.sp = s.sp + ws.length := by
    rw [pushAll_sp ws s hsp]; omega
  refine ⟨?_, ?_, ?_, ?_, ?_⟩
  · rw [pushAll_res ws s hsp]
    simp
    omega
  · rw [popAllS_res]
    simp [hsp']
  · apply list_eq_of_getD
    · rw [popAllS_out_len]
      simp
    · intro i hi
      rw [popAllS_out_len] at hi
      simp only [List.length_replicate] at hi
      rw [popAllS_out _ _ i (by simp [hi]), hsp']
      have hif : i < s.sp + ws.length := by omega
      simp only [hif, if_true]
      have hmid := pushAll_data_mid ws s hlen hsp (ws.length - 1 - i)
        (by omega) (by omega)
      have ha : s.sp + (ws.length - 1 - i) = s.sp + ws.length - 1 - i := by
        omega
      rw [ha] at hmid
      rw [hmid, getD_reverse ws i hi]
  · rw [popAllS_state]
    simp [hsp']
  · intro h
    have hne : s.sp ≠ s.size := by omega
    rw [lbm_push_ok s v hne]
    rw [lbm_pop_ok _ r (by simp)]
    refine ⟨rfl, ?_, by simp⟩
    simp only [Nat.add_sub_cancel]
    exact getD_set_self s.data s.sp v (by omega)

/-- C5 witness: pushing 1 then 2 on a fresh stack of capacity 3, the
two pops return 2 then 1 and depth returns to 0; push 9 then pop
returns 9. -/
theorem C5_lifo_roundtrip_witness :
    (popAllS (pushAll (lbm_stack_create [0, 0, 0] 3) [1, 2]).2
      (List.replicate 2 0)).2.2 = [2, 1] ∧
    (popAllS (pushAll (lbm_stack_create [0, 0, 0] 3) [1, 2]).2
      (List.replicate 2 0)).2.1.sp = 0 ∧
    (lbm_pop (lbm_push (lbm_stack_create [0, 0, 0] 3) 9).2 0).2.2 = 9 := by
  have h := C5_lifo_roundtrip (lbm_stack_create [0, 0, 0] 3) [1, 2] 9 0
    rfl (by decide) (by decide)
  exact ⟨h.2.2.1, h.2.2.2.1, (h.2.2.2.2 (by decide)).2.1⟩

lemma popAllS_stale (stale : List Nat) (s : lbm_stack_t) (i : Nat)
    (hi : i < stale.length) (h : s.sp ≤ i) :
    (popAllS s stale).2.2.getD i 0 = stale.getD i 0 := by
  rw [popAllS_out stale s i hi]
  simp [show ¬ i < s.sp by omega]

/-- C3: on an empty stack every bulk pop fails as a whole while leaving
the stack and every output slot (stale contents r0..r4) untouched; the
overall result of a bulk pop is the AND of its sub-pop results, true
exactly when the starting depth covers all k sub-pops; from any
starting depth, every sub-pop that executes once the depth has reached
0 (the j-th sub-pop, whenever the starting depth is at most j) leaves
its output slot holding exactly the stale value it already held, never
zeroed, never synthesized; and the sequential pop chain reads no
storage slot outside [0, capacity): two stacks of equal depth and
capacity whose buffers agree on all indices below the capacity produce
identical results, final depths and outputs. -/
theorem C3_bulk_pop_underflow (s t : lbm_stack_t) (r0 r1 r2 r3 r4 : Nat) :
    (s.sp = 0 →
      lbm_pop_2 s r0 r1 = (false, s, r0, r1) ∧
      lbm_pop_3 s r0 r1 r2 = (false, s, r0, r1, r2) ∧
      lbm_pop_4 s r0 r1 r2 r3 = (false, s, r0, r1, r2, r3) ∧
      lbm_pop_5 s r0 r1 r2 r3 r4 = (false, s, r0, r1, r2, r3, r4)) ∧
    ((lbm_pop_2 s r0 r1).1 = decide (2 ≤ s.sp) ∧
     (lbm_pop_3 s r0 r1 r2).1 = decide (3 ≤ s.sp) ∧
     (lbm_pop_4 s r0 r1 r2 r3).1 = decide (4 ≤ s.sp) ∧
     (lbm_pop_5 s r0 r1 r2 r3 r4).1 = decide (5 ≤ s.sp)) ∧
    ((s.sp ≤ 1 → (lbm_pop_2 s r0 r1).2.2.2 = r1) ∧
     (s.sp ≤ 1 → (lbm_pop_3 s r0 r1 r2).2.2.2.1 = r1) ∧
     (s.sp ≤ 2 → (lbm_pop_3 s r0 r1 r2).2.2.2.2 = r2) ∧
     (s.sp ≤ 1 → (lbm_pop_4 s r0 r1 r2 r3).2.2.2.1 = r1) ∧
     (s.sp ≤ 2 → (lbm_pop_4 s r0 r1 r2 r3).2.2.2.2.1 = r2) ∧
     (s.sp ≤ 3 → (lbm_pop_4 s r0 r1 r2 r3).2.2.2.2.2 = r3) ∧
     (s.sp ≤ 1 → (lbm_pop_5 s r0 r1 r2 r3 r4).2.2.2.1 = r1) ∧
     (s.sp ≤ 2 → (lbm_pop_5 s r0 r1 r2 r3 r4).2.2.2.2.1 = r2) ∧
     (s.sp ≤ 3 → (lbm_pop_5 s r0 r1 r2 r3 r4).2.2.2.2.2.1 = r3) ∧
     (s.sp ≤ 4 → (lbm_pop_5 s r0 r1 r2 r3 r4).2.2.2.2.2.2 = r4)) ∧
    (s.sp ≤ s.size → s.sp = t.sp → s.size = t.size →
      (∀ i, i < s.size → s.data.getD i 0 = t.data.getD i 0) →
      ∀ stale : List Nat,
        (popAllS s stale).1 = (popAllS t stale).1 ∧
        (popAllS s stale).2.1.sp = (popAllS t stale).2.1.sp ∧
        (popAllS s stale).2.2 = (popAllS t stale).2.2) := by
  refine ⟨?_, ?_, ?_, ?_⟩
  · intro h
    refine ⟨?_, ?_, ?_, ?_⟩ <;> simp [lbm_pop_2, lbm_pop_3, lbm_pop_4,
      lbm_pop_5, lbm_pop, h]
  · refine ⟨?_, ?_, ?_, ?_⟩ <;>
      simp [lbm_pop_2_eq, lbm_pop_3_eq, lbm_pop_4_eq, lbm_pop_5_eq,
        popAllS_res]
  · refine ⟨?_, ?_, ?_, ?_, ?_, ?_, ?_, ?_, ?_, ?_⟩
    · intro h
      rw [lbm_pop_2_eq]
      exact popAllS_stale [r0, r1] s 1 (by simp) h
    · intro h
      rw [lbm_pop_3_eq]
      exact popAllS_stale [r0, r1, r2] s 1 (by simp) h
    · intro h
      rw [lbm_pop_3_eq]
      exact popAllS_stale [r0, r1, r2] s 2 (by simp) h
    · intro h
      rw [lbm_pop_4_eq]
      exact popAllS_stale [r0, r1, r2, r3] s 1 (by simp) h
    · intro h
      rw [lbm_pop_4_eq]
      exact popAllS_stale [r0, r1, r2, r3] s 2 (by simp) h
    · intro h
      rw [lbm_pop_4_eq]
      exact popAllS_stale [r0, r1, r2, r3] s 3 (by simp) h
    · intro h
      rw [lbm_pop_5_eq]
      exact popAllS_stale [r0, r1, r2, r3, r4] s 1 (by simp) h
    · intro h
      rw [lbm_pop_5_eq]
      exact popAllS_stale [r0, r1, r2, r3, r4] s 2 (by simp) h
    · intro h
      rw [lbm_pop_5_eq]
      exact popAllS_stale [r0, r1, r2, r3, r4] s 3 (by simp) h
    · intro h
      rw [lbm_pop_5_eq]
      exact popAllS_stale [r0, r1, r2, r3, r4] s 4 (by simp) h
  · intro hsp h2 h3 hagree stale
    refine ⟨?_, ?_, ?_⟩
    · rw [popAllS_res, popAllS_res, h2]
    · rw [popAllS_state, popAllS_state]
      simp [h2]
    · apply list_eq_of_getD
      · rw [popAllS_out_len, popAllS_out_len]
      · intro i hi
        rw [popAllS_out_len] at hi
        rw [popAllS_out _ _ i hi, popAllS_out _ _ i hi, h2]
        by_cases hlt : i < t.sp
        · simp only [hlt, if_true]
          rw [← h2]
          exact hagree (s.sp - 1 - i) (by omega)
        · simp only [hlt, if_false]

/-- C3 witness: pop_2 with stale slot contents 7 and 8 on the empty
stack fails overall and leaves both slots and the stack untouched;
pop_2 on a stack of depth 1 (a partially failing call) fails overall
and leaves the second output slot at its stale content 8. -/
theorem C3_bulk_pop_underflow_witness :
    lbm_pop_2 ⟨[], 0, 0, 0⟩ 7 8 = (false, ⟨[], 0, 0, 0⟩, 7, 8) ∧
    (lbm_pop_2 ⟨[5, 6], 1, 2, 1⟩ 7 8).2.2.2 = 8 ∧
    (lbm_pop_2 ⟨[5, 6], 1, 2, 1⟩ 7 8).1 = false := by
  refine ⟨((C3_bulk_pop_underflow ⟨[], 0, 0, 0⟩ ⟨[], 0, 0, 0⟩ 7 8 0 0 0).1
    rfl).1, ?_, ?_⟩
  · exact (C3_bulk_pop_underflow ⟨[5, 6], 1, 2, 1⟩ ⟨[5, 6], 1, 2, 1⟩
      7 8 0 0 0).2.2.1.1 (by decide)
  · rw [(C3_bulk_pop_underflow ⟨[5, 6], 1, 2, 1⟩ ⟨[5, 6], 1, 2, 1⟩
      7 8 0 0 0).2.1.1]
    decide
/-- C9: a bulk push with depth d and capacity c equals the sequential
chain on its argument list, and the chain commits exactly the first
min(k, c - d) arguments in order at indices d, d+1, ..., leaves the
final depth at min(d + k, c), succeeds exactly when d + k ≤ c, and
touches no other slot. -/
theorem C9_bulk_push_commit (s : lbm_stack_t) (ws : List Nat)
    (a b c d e : Nat) (hlen : s.data.length = s.size) (hsp : s.sp ≤ s.size) :
    lbm_push_2 s a b = pushAll s [a, b] ∧
    lbm_push_3 s a b c = pushAll s [a, b, c] ∧
    lbm_push_4 s a b c d = pushAll s [a, b, c, d] ∧
    lbm_push_5 s a b c d e = pushAll s [a, b, c, d, e] ∧
    ((pushAll s ws).1 = true ↔ s.sp + ws.length ≤ s.size) ∧
    (pushAll s ws).2.sp = min (s.sp + ws.length) s.size ∧
    (∀ i, i < min ws.length (s.size - s.sp) →
      (pushAll s ws).2.data.getD (s.sp + i) 0 = ws.getD i 0) ∧
    (∀ j, j < s.sp → (pushAll s ws).2.data.getD j 0 = s.data.getD j 0) ∧
    (∀ j, min (s.sp + ws.length) s.size ≤ j →
      (pushAll s ws).2.data.getD j 0 = s.data.getD j 0) := by
  refine ⟨lbm_push_2_eq s a b, lbm_push_3_eq s a b c, lbm_push_4_eq s a b c d,
    lbm_push_5_eq s a b c d e, ?_, pushAll_sp ws s hsp, ?_, ?_, ?_⟩
  · rw [pushAll_res ws s hsp]
    simp
  · intro i hi
    exact pushAll_data_mid ws s hlen hsp i (by omega) (by omega)
  · intro j hj
    exact pushAll_data_lo ws s j hj
  · intro j hj
    exact pushAll_data_hi ws s hsp j hj

/-- C9 witness: pushing four words onto a fresh stack of capacity 3
commits the first three (7 lands at index 2) and tops out at depth 3;
on the same stack a two-word bulk push equals the sequential chain. -/
theorem C9_bulk_push_commit_witness :
    (pushAll (lbm_stack_create [0, 0, 0] 3) [5, 6, 7, 8]).2.sp = 3 ∧
    (pushAll (lbm_stack_create [0, 0, 0] 3) [5, 6, 7, 8]).2.data.getD 2 0 = 7 ∧
    lbm_push_2 (lbm_stack_create [0, 0, 0] 3) 1 2 =
      pushAll (lbm_stack_create [0, 0, 0] 3) [1, 2] := by
  have h := C9_bulk_push_commit (lbm_stack_create [0, 0, 0] 3) [5, 6, 7, 8]
    1 2 3 4 5 rfl (by decide)
  exact ⟨h.2.2.2.2.2.1, h.2.2.2.2.2.2.1 2 (by decide), h.1⟩

/-- C10: a bulk pop on a stack whose depth d satisfies 0 < d < k (the
stale output list standing for the k slots) equals the sequential chain
slot for slot, and the chain writes the top d words into the first d
output slots in top-down order, leaves the remaining slots at their
stale contents, sets the depth to 0 without touching buffer, capacity
or peak, and fails overall. -/
theorem C10_bulk_pop_prefix (s : lbm_stack_t) (stale : List Nat)
    (r0 r1 r2 r3 r4 : Nat) (h0 : 0 < s.sp) (hk : s.sp < stale.length) :
    lbm_pop_2 s r0 r1 =
      ((popAllS s [r0, r1]).1, (popAllS s [r0, r1]).2.1,
       (popAllS s [r0, r1]).2.2.getD 0 0, (popAllS s [r0, r1]).2.2.getD 1 0) ∧
    lbm_pop_3 s r0 r1 r2 =
      ((popAllS s [r0, r1, r2]).1, (popAllS s [r0, r1, r2]).2.1,
       (popAllS s [r0, r1, r2]).2.2.getD 0 0, (popAllS s [r0, r1, r2]).2.2.getD 1 0,
       (popAllS s [r0, r1, r2]).2.2.getD 2 0) ∧
    lbm_pop_4 s r0 r1 r2 r3 =
      ((popAllS s [r0, r1, r2, r3]).1, (popAllS s [r0, r1, r2, r3]).2.1,
       (popAllS s [r0, r1, r2, r3]).2.2.getD 0 0,
       (popAllS s [r0, r1, r2, r3]).2.2.getD 1 0,
       (popAllS s [r0, r1, r2, r3]).2.2.getD 2 0,
       (popAllS s [r0, r1, r2, r3]).2.2.getD 3 0) ∧
    lbm_pop_5 s r0 r1 r2 r3 r4 =
      ((popAllS s [r0, r1, r2, r3, r4]).1, (popAllS s [r0, r1, r2, r3, r4]).2.1,
       (popAllS s [r0, r1, r2, r3, r4]).2.2.getD 0 0,
       (popAllS s [r0, r1, r2, r3, r4]).2.2.getD 1 0,
       (popAllS s [r0, r1, r2, r3, r4]).2.2.getD 2 0,
       (popAllS s [r0, r1, r2, r3, r4]).2.2.getD 3 0,
       (popAllS s [r0, r1, r2, r3, r4]).2.2.getD 4 0) ∧
    (popAllS s stale).1 = false ∧
    (popAllS s stale).2.1 = { s with sp := 0 } ∧
    (∀ i, i < s.sp →
      (popAllS s stale).2.2.getD i 0 = s.data.getD (s.sp - 1 - i) 0) ∧
    (∀ i, s.sp ≤ i → i < stale.length →
      (popAllS s stale).2.2.getD i 0 = stale.getD i 0) := by
  refine ⟨lbm_pop_2_eq s r0 r1, lbm_pop_3_eq s r0 r1 r2,
    lbm_pop_4_eq s r0 r1 r2 r3, lbm_pop_5_eq s r0 r1 r2 r3 r4,
    ?_, ?_, ?_, ?_⟩
  · rw [popAllS_res]
    simp
    omega
  · rw [popAllS_state]
    have h : s.sp - stale.length = 0 := by omega
    rw [h]
  · intro i hi
    rw [popAllS_out _ _ i (by omega)]
    simp [hi]
  · intro i hi hilen
    rw [popAllS_out _ _ i hilen]
    have h : ¬ i < s.sp := by omega
    simp [h]

/-- C10 witness: pop_2 (through the chain) on a stack holding one word
5 at depth 1 with stale slots 7 and 8: overall failure, depth 0, first
slot receives 5, second keeps 8. -/
theorem C10_bulk_pop_prefix_witness :
    (popAllS ⟨[5, 6], 1, 2, 1⟩ [7, 8]).1 = false ∧
    (popAllS ⟨[5, 6], 1, 2, 1⟩ [7, 8]).2.1 = ⟨[5, 6], 0, 2, 1⟩ ∧
    (popAllS ⟨[5, 6], 1, 2, 1⟩ [7, 8]).2.2.getD 0 0 = 5 ∧
    (popAllS ⟨[5, 6], 1, 2, 1⟩ [7, 8]).2.2.getD 1 0 = 8 := by
  have h := C10_bulk_pop_prefix ⟨[5, 6], 1, 2, 1⟩ [7, 8] 7 8 0 0 0
    (by decide) (by decide)
  exact ⟨h.2.2.2.2.1, h.2.2.2.2.2.1, h.2.2.2.2.2.2.1 0 (by decide),
    h.2.2.2.2.2.2.2 1 (by decide) (by decide)⟩

/-- C1 counterexample: on the claim's own regression input — capacity
4, two words already pushed (depth 2), then push_3(100, 200, 300) — the
call does fail overall, but the final depth is 4, not 3 as the claim
states: 100 and 200 are both committed (depth 2 → 3 → 4) before 300 is
rejected at the full stack. -/
theorem C1_push_3_regression_refuted :
    (lbm_push_3 ⟨[10, 20, 0, 0], 2, 4, 2⟩ 100 200 300).1 = false ∧
    (lbm_push_3 ⟨[10, 20, 0, 0], 2, 4, 2⟩ 100 200 300).2.sp = 4 ∧
    ((lbm_push_3 ⟨[10, 20, 0, 0], 2, 4, 2⟩ 100 200 300).2.sp = 3) = False :=
  ⟨rfl, rfl, eq_false (by decide)⟩

/-- C1 amended: for every bulk push push_k (k in 2..5), if capacity is
exhausted partway through the call, every word whose sub-push occurred
before exhaustion is committed (depth incremented for each, final depth
exactly the capacity, never beyond), later sub-pushes fail without
changing depth further, and the call fails overall; concretely, on a
stack of capacity 4 already holding 2 words, push_3(100, 200, 300)
returns overall failure and leaves depth == 4 with 100 and 200 stored
at indices 2 and 3. -/
theorem C1_bulk_push_nonatomic (s : lbm_stack_t) (a b c d e : Nat)
    (hlen : s.data.length = s.size) (hsp : s.sp ≤ s.size) :
    (s.size < s.sp + 2 →
      (lbm_push_2 s a b).1 = false ∧ (lbm_push_2 s a b).2.sp = s.size ∧
      ∀ i, i < s.size - s.sp →
        (lbm_push_2 s a b).2.data.getD (s.sp + i) 0 = [a, b].getD i 0) ∧
    (s.size < s.sp + 3 →
      (lbm_push_3 s a b c).1 = false ∧ (lbm_push_3 s a b c).2.sp = s.size ∧
      ∀ i, i < s.size - s.sp →
        (lbm_push_3 s a b c).2.data.getD (s.sp + i) 0 = [a, b, c].getD i 0) ∧
    (s.size < s.sp + 4 →
      (lbm_push_4 s a b c d).1 = false ∧ (lbm_push_4 s a b c d).2.sp = s.size ∧
      ∀ i, i < s.size - s.sp →
        (lbm_push_4 s a b c d).2.data.getD (s.sp + i) 0 = [a, b, c, d].getD i 0) ∧
    (s.size < s.sp + 5 →
      (lbm_push_5 s a b c d e).1 = false ∧ (lbm_push_5 s a b c d e).2.sp = s.size ∧
      ∀ i, i < s.size - s.sp →
        (lbm_push_5 s a b c d e).2.data.getD (s.sp + i) 0 = [a, b, c, d, e].getD i 0) ∧
    (lbm_push_3 ⟨[10, 20, 0, 0], 2, 4, 2⟩ 100 200 300).1 = false ∧
    (lbm_push_3 ⟨[10, 20, 0, 0], 2, 4, 2⟩ 100 200 300).2.sp = 4 ∧
    (lbm_push_3 ⟨[10, 20, 0, 0], 2, 4, 2⟩ 100 200 300).2.data = [10, 20, 100, 200] := by
  refine ⟨?_, ?_, ?_, ?_, rfl, rfl, rfl⟩
  all_goals intro h
  · rw [lbm_push_2_eq]
    refine ⟨?_, ?_, ?_⟩
    · rw [pushAll_res _ s hsp]
      simp
      omega
    · rw [pushAll_sp _ s hsp]
      simp
      omega
    · intro i hi
      exact pushAll_data_mid _ s hlen hsp i (by simp; omega) (by omega)
  · rw [lbm_push_3_eq]
    refine ⟨?_, ?_, ?_⟩
    · rw [pushAll_res _ s hsp]
      simp
      omega
    · rw [pushAll_sp _ s hsp]
      simp
      omega
    · intro i hi
      exact pushAll_data_mid _ s hlen hsp i (by simp; omega) (by omega)
  · rw [lbm_push_4_eq]
    refine ⟨?_, ?_, ?_⟩
    · rw [pushAll_res _ s hsp]
      simp
      omega
    · rw [pushAll_sp _ s hsp]
      simp
      omega
    · intro i hi
      exact pushAll_data_mid _ s hlen hsp i (by simp; omega) (by omega)
  · rw [lbm_push_5_eq]
    refine ⟨?_, ?_, ?_⟩
    · rw [pushAll_res _ s hsp]
      simp
      omega
    · rw [pushAll_sp _ s hsp]
      simp
      omega
    · intro i hi
      exact pushAll_data_mid _ s hlen hsp i (by simp; omega) (by omega)

/-- C1 witness: the amended partial-commit behavior evaluated on the
regression input (capacity 4, depth 2, push_3). -/
theorem C1_bulk_push_nonatomic_witness :
    (lbm_push_3 ⟨[10, 20, 0, 0], 2, 4, 2⟩ 100 200 300).1 = false ∧
    (lbm_push_3 ⟨[10, 20, 0, 0], 2, 4, 2⟩ 100 200 300).2.sp = 4 ∧
    (lbm_push_3 ⟨[10, 20, 0, 0], 2, 4, 2⟩ 100 200 300).2.data.getD 2 0 = 100 ∧
    (lbm_push_3 ⟨[10, 20, 0, 0], 2, 4, 2⟩ 100 200 300).2.data.getD 3 0 = 200 := by
  have h := (C1_bulk_push_nonatomic ⟨[10, 20, 0, 0], 2, 4, 2⟩ 100 200 300 0 0
    rfl (by decide)).2.1 (by decide)
  exact ⟨h.1, h.2.1, h.2.2 0 (by decide), h.2.2 1 (by decide)⟩

lemma stepOp_size (op : StackOp) (s : lbm_stack_t) :
    (stepOp op s).size = s.size := by
  cases op with
  | push v =>
    simp only [stepOp]
    by_cases hf : s.sp = s.size
    · rw [lbm_push_full s v hf]
    · rw [lbm_push_ok s v hf]
  | pop =>
    simp only [stepOp]
    by_cases hf : s.sp = 0
    · rw [lbm_pop_empty s 0 hf]
    · rw [lbm_pop_ok s 0 hf]
  | push2 a b => simp only [stepOp]; rw [lbm_push_2_eq]; exact pushAll_size _ s
  | push3 a b c => simp only [stepOp]; rw [lbm_push_3_eq]; exact pushAll_size _ s
  | push4 a b c d => simp only [stepOp]; rw [lbm_push_4_eq]; exact pushAll_size _ s
  | push5 a b c d e => simp only [stepOp]; rw [lbm_push_5_eq]; exact pushAll_size _ s
  | pop2 => simp only [stepOp]; rw [lbm_pop_2_eq, popAllS_state]
  | pop3 => simp only [stepOp]; rw [lbm_pop_3_eq, popAllS_state]
  | pop4 => simp only [stepOp]; rw [lbm_pop_4_eq, popAllS_state]
  | pop5 => simp only [stepOp]; rw [lbm_pop_5_eq, popAllS_state]
  | drop n =>
    simp only [stepOp, lbm_stack_drop]
    by_cases hf : n > s.sp <;> simp [hf]
  | peek n => rfl
  | clear => rfl

lemma runOps_size (ops : List StackOp) (s : lbm_stack_t) :
    (runOps ops s).size = s.size := by
  induction ops generalizing s with
  | nil => rfl
  | cons op rest ih => rw [runOps, ih, stepOp_size]

/-- C4: after any finite sequence of operations starting from a freshly
constructed stack, 0 ≤ depth ≤ capacity and peak ≥ depth hold (the
capacity itself never changes), and the peak never decreases across any
single operation other than clear, from any state whatsoever. -/
theorem C4_invariant_preservation (buf : List Nat) (cap : Nat)
    (ops : List StackOp) :
    0 ≤ (runOps ops (lbm_stack_create buf cap)).sp ∧
    (runOps ops (lbm_stack_create buf cap)).sp ≤ cap ∧
    (runOps ops (lbm_stack_create buf cap)).size = cap ∧
    (runOps ops (lbm_stack_create buf cap)).sp ≤
      (runOps ops (lbm_stack_create buf cap)).max_sp ∧
    (∀ (t : lbm_stack_t) (op : StackOp), op ≠ StackOp.clear →
      t.max_sp ≤ (stepOp op t).max_sp) := by
  have hsize : (runOps ops (lbm_stack_create buf cap)).size = cap :=
    runOps_size ops (lbm_stack_create buf cap)
  have hinv := runOps_stackinv ops (lbm_stack_create buf cap)
    ⟨Nat.zero_le _, Nat.le_refl 0⟩
  exact ⟨Nat.zero_le _, le_trans hinv.1 (le_of_eq hsize), hsize, hinv.2,
    fun t op h => stepOp_max_sp_mono op t h⟩

/-- C4 witness: a concrete run (push 5, push 7, pop, drop 1) on a fresh
stack of capacity 2 respects the bounds, and a push step on a concrete
state does not decrease the peak. -/
theorem C4_invariant_preservation_witness :
    (runOps [StackOp.push 5, StackOp.push 7, StackOp.pop, StackOp.drop 1]
      (lbm_stack_create [0, 0] 2)).sp ≤ 2 ∧
    (runOps [StackOp.push 5, StackOp.push 7, StackOp.pop, StackOp.drop 1]
      (lbm_stack_create [0, 0] 2)).sp ≤
      (runOps [StackOp.push 5, StackOp.push 7, StackOp.pop, StackOp.drop 1]
        (lbm_stack_create [0, 0] 2)).max_sp ∧
    (⟨[3], 1, 1, 1⟩ : lbm_stack_t).max_sp ≤
      (stepOp (StackOp.push 9) ⟨[3], 1, 1, 1⟩).max_sp := by
  have h := C4_invariant_preservation [0, 0] 2
    [StackOp.push 5, StackOp.push 7, StackOp.pop, StackOp.drop 1]
  exact ⟨h.2.1, h.2.2.2.1, h.2.2.2.2 ⟨[3], 1, 1, 1⟩ (StackOp.push 9) (by decide)⟩
